import Mathlib

/-!
Verification of the Loop (Ralph) agentic iteration engine.

Strings are modelled as `List Char` so that the JavaScript string scanning
performed by the source (regular-expression matching, `includes`, `trim`)
can be embedded as executable Lean functions and reasoned about directly.
-/

namespace Loop

/-- Strings of the modelled program. -/
abbrev Str := List Char

/-- Conversion from Lean string literals. -/
def txt (s : String) : Str := s.toList

/-- The common members of the JavaScript `\s` character class. -/
def isJsWs (c : Char) : Bool :=
  c == ' ' || c == '\t' || c == '\n' || c == '\r' || c == '\x0b' ||
  c == '\x0c' || c == ' '

/-- Lower-casing a character (the source texts compared are ASCII). -/
def lcChar (c : Char) : Char := c.toLower

/-- Lower-casing a string, as JavaScript `toLowerCase` on ASCII text. -/
def lcStr (s : Str) : Str := s.map lcChar

/-- Case-insensitive prefix test: does `s` start with pattern `p`
(as the `i` flag makes literal fragments of the source regexes match)? -/
def startsWithCI : Str → Str → Bool
  | [], _ => true
  | _ :: _, [] => false
  | p :: ps, c :: cs => (lcChar p == lcChar c) && startsWithCI ps cs

/-- Case-sensitive prefix test (JavaScript `startsWith`). -/
def hasPrefixB : Str → Str → Bool
  | [], _ => true
  | _ :: _, [] => false
  | p :: ps, c :: cs => (p == c) && hasPrefixB ps cs

/-- JavaScript `String.prototype.includes`: substring search. -/
def jsIncludes (pat : Str) : Str → Bool
  | [] => hasPrefixB pat []
  | c :: cs => hasPrefixB pat (c :: cs) || jsIncludes pat cs

/-- JavaScript `String.prototype.trim`. -/
def jsTrim (s : Str) : Str :=
  ((s.dropWhile isJsWs).reverse.dropWhile isJsWs).reverse

/-- The characters a JavaScript `.` can consume: everything up to the next
newline. -/
def takeNonNl (s : Str) : Str := s.takeWhile (fun c => !(c == '\n'))

/-- The largest index of `w` holding a character other than a newline. -/
def lastNonNlPos (w : Str) : Option Nat :=
  let r := w.reverse.dropWhile (fun c => c == '\n')
  if r.isEmpty then none else some (r.length - 1)

/-- Matching of the tail fragment `\s*(.+?)(?:\n|$)` of the source regexes
at the start of `s`, returning group 1 (before trimming).  The greedy `\s*`
first consumes the maximal whitespace run; if nothing remains for `.+?`,
the engine backtracks to the last whitespace character that is not a
newline (a `.` cannot match a newline). -/
def captureAfterWs (s : Str) : Option Str :=
  let w := s.takeWhile isJsWs
  let rest := s.drop w.length
  if !rest.isEmpty then some (takeNonNl rest)
  else
    match lastNonNlPos w with
    | some t => some (takeNonNl (s.drop t))
    | none => none

/-- Attempt of `/##\s*Completed:\s*(.+?)(?:\n|$)/i` at the start of `s`,
returning group 1 (before trimming).  The `\s*` before the literal
`Completed:` is deterministic, since no alternative shorter run can be
followed by a non-whitespace letter. -/
def completedAt (s : Str) : Option Str :=
  if startsWithCI (txt "##") s then
    let s2 := (s.drop 2).dropWhile isJsWs
    if startsWithCI (txt "completed:") s2 then captureAfterWs (s2.drop 10)
    else none
  else none

/-- Leftmost match of a positional matcher, as JavaScript `String.match`
without the `g` flag: the earliest position where the whole pattern
matches wins. -/
def firstMatchAux (f : Str → Option Str) : Str → Option Str
  | [] => f []
  | c :: cs =>
    match f (c :: cs) with
    | some r => some r
    | none => firstMatchAux f cs

/-- Attempt of the inline task-description heuristic
`/(?:working on|implementing|task:|completed:)\s*(.+?)(?:\n|$)/i` at the
start of `s`.  The four alternatives begin with distinct letters, so at a
given position at most one can match and no alternation backtracking
arises. -/
def heurAt (s : Str) : Option Str :=
  if startsWithCI (txt "working on") s then captureAfterWs (s.drop 10)
  else if startsWithCI (txt "implementing") s then captureAfterWs (s.drop 12)
  else if startsWithCI (txt "task:") s then captureAfterWs (s.drop 5)
  else if startsWithCI (txt "completed:") s then captureAfterWs (s.drop 10)
  else none

/-- Does one of the lookahead alternatives match at the start of `s`? -/
def stopsAt (stops : List Str) (s : Str) : Bool :=
  stops.any (fun p => startsWithCI p s)

/-- The lazy capture `([\s\S]*?)` bounded by a lookahead
`(?=alt₁|…|altₙ|$)`: the shortest prefix up to the first position where a
stop alternative (or the end of input) matches. -/
def lazyCapture (stops : List Str) : Str → Str
  | [] => []
  | c :: cs => if stopsAt stops (c :: cs) then [] else c :: lazyCapture stops cs

/-- Attempt of `/##\s*<headword>\s*\n([\s\S]*?)(?=…|$)/i` at the start of
`s`, returning group 1.  The `\s*` before the mandatory `\n` backtracks to
the last newline inside the whitespace run following the headword;
whitespace after that newline belongs to the capture. -/
def sectionAt (headword : Str) (stops : List Str) (s : Str) : Option Str :=
  if startsWithCI (txt "##") s then
    let s2 := (s.drop 2).dropWhile isJsWs
    if startsWithCI headword s2 then
      let s3 := s2.drop headword.length
      let w := s3.takeWhile isJsWs
      let r := w.reverse.dropWhile (fun c => !(c == '\n'))
      match r with
      | [] => none
      | _ :: _ =>
        let b := (w.reverse.takeWhile (fun c => !(c == '\n'))).reverse
        some (lazyCapture stops (b ++ s3.drop w.length))
    else none
  else none

/-- Lookahead alternatives ending the `## Changes Made` section:
`(?=\n##|\n---|\n\*\*|$)`. -/
def stopsChangesMade : List Str := [txt "\n##", txt "\n---", txt "\n**"]

/-- Lookahead alternatives ending the `## Decisions` section:
`(?=\n##|\n---|\n\*\*Completed|$)`. -/
def stopsDecisions : List Str := [txt "\n##", txt "\n---", txt "\n**Completed"]

/-- Attempt of the bullet regex `/^[-*]\s+(.+)$/m` at the start of `l`
(which the caller guarantees to be a line start), returning the length of
the full match.  `\s+` is greedy; if it swallows the rest of the input the
engine backtracks to the last whitespace character other than a newline,
keeping at least one whitespace character matched. -/
def bulletAt (l : Str) : Option Nat :=
  match l with
  | [] => none
  | c :: rest =>
    if c == '-' || c == '*' then
      let w := rest.takeWhile isJsWs
      if w.isEmpty then none
      else
        let after := rest.drop w.length
        if !after.isEmpty then some (1 + w.length + (takeNonNl after).length)
        else
          match lastNonNlPos w with
          | some t => if 1 ≤ t then some (1 + t + (takeNonNl (rest.drop t)).length) else none
          | none => none
    else none

/-- Global multiline scan of `/^[-*]\s+(.+)$/gm`, collecting the full
matches in order.  `atStart` records whether the current position is a
line start; after every match the scan resumes at the match end, which is
never a line start since the final `.+` character is not a newline. -/
def bulletsGo : Nat → Bool → Str → List Str
  | 0, _, _ => []
  | _, _, [] => []
  | fuel + 1, atStart, c :: cs =>
    if atStart then
      match bulletAt (c :: cs) with
      | some k => (c :: cs).take k :: bulletsGo fuel false ((c :: cs).drop k)
      | none => bulletsGo fuel (c == '\n') cs
    else bulletsGo fuel (c == '\n') cs

/-- All full matches of `/^[-*]\s+(.+)$/gm` on `block`. -/
def bullets (block : Str) : List Str := bulletsGo (block.length + 1) true block

/-- `line.replace(/^[-*]\s+/, '')`: strip the leading bullet marker and
the following whitespace run, if present. -/
def stripBullet (m : Str) : Str :=
  match m with
  | [] => []
  | c :: rest =>
    if c == '-' || c == '*' then
      let w := rest.takeWhile isJsWs
      if w.isEmpty then m else rest.drop w.length
    else m

/-- Result of `parseStructuredOutput`. -/
structure ParsedOutput where
  taskDescription : Str
  decisions : List Str
  summary : Str
  deriving DecidableEq, Repr

/-- Embedding of `parseStructuredOutput` (src/agent.ts): extract the
`## Completed:` task description, the `## Changes Made` summary and the
`## Decisions` bullet list from the accumulated response text. -/
def parseStructuredOutput (output : Str) : ParsedOutput :=
  { taskDescription :=
      match firstMatchAux completedAt output with
      | some g => jsTrim g
      | none => []
    decisions :=
      match firstMatchAux (sectionAt (txt "decisions") stopsDecisions) output with
      | some block =>
        match bullets block with
        | [] => []
        | bps =>
          (bps.map (fun line => jsTrim (stripBullet line))).filter
            (fun d => !(d == []) && !(lcStr d == txt "none"))
      | none => []
    summary :=
      match firstMatchAux (sectionAt (txt "changes made") stopsChangesMade) output with
      | some g => jsTrim g
      | none => [] }

/-! ### JavaScript value helpers -/

/-- JavaScript `a || d` for an optional string `a`: the default is taken
when `a` is `undefined` or the empty string (both falsy). -/
def jsOrStr (a : Option Str) (d : Str) : Str :=
  match a with
  | some s => if s.isEmpty then d else s
  | none => d

/-- JavaScript `a || b` where both operands are optional strings: the
result is `a` when `a` is truthy and the (possibly absent) `b` otherwise. -/
def jsOr2 (a b : Option Str) : Option Str :=
  match a with
  | some s => if s.isEmpty then b else some s
  | none => b

/-- Template interpolation of a possibly absent string:
JavaScript renders `undefined` literally. -/
def tmplStr (o : Option Str) : Str :=
  match o with
  | some s => s
  | none => txt "undefined"

/-- Decimal rendering of a natural number, as JavaScript renders integral
numbers inside a template literal. -/
def natStr (n : Nat) : Str := txt (toString n)

/-- Decimal rendering of an integer. -/
def intStr (n : Int) : Str := txt (toString n)

/-- Template interpolation of a possibly absent integer. -/
def tmplInt (o : Option Int) : Str :=
  match o with
  | some n => intStr n
  | none => txt "undefined"

/-- Truthiness of an optional boolean (`undefined` is falsy). -/
def jsTruthyBool (o : Option Bool) : Bool :=
  match o with
  | some b => b
  | none => false

/-! ### Terminal tools (src/tools/terminal.ts) -/

/-- Result record of `executeCommand` and of the check runners
(`CommandResult` in types.ts); absent fields are `none`. -/
structure CommandResult where
  success : Bool
  output : Option Str := none
  stdout : Option Str := none
  stderr : Option Str := none
  error : Option Str := none
  exitCode : Option Int := none
  deriving DecidableEq, Repr

/-- The observable behaviour of the spawned child process: either the
timeout fires first, or the process closes with an exit code (`none` when
killed by a signal), or spawning itself fails. -/
inductive ProcOutcome where
  | timeout (partialOut partialErr : Str)
  | closed (code : Option Int) (out err : Str)
  | spawnError (msg : Str)
  deriving DecidableEq, Repr

/-- Embedding of `executeCommand` (src/tools/terminal.ts): `timeoutMs` is
the configured timeout, `duration` the measured wall time used only in the
success message, and `p` what the child process did. -/
def executeCommand (timeoutMs : Nat) (duration : Nat) (p : ProcOutcome) : CommandResult :=
  match p with
  | .timeout po pe =>
    { success := false
      error := some (txt "Command timed out after " ++ natStr timeoutMs ++ txt "ms")
      stdout := some po
      stderr := some pe
      exitCode := some (-1) }
  | .closed code out err =>
    if code = some 0 then
      { success := true
        output := some (txt "Command completed in " ++ natStr duration ++ txt "ms")
        stdout := some (jsTrim out)
        stderr := some (jsTrim err)
        exitCode := code }
    else
      { success := false
        error := some (txt "Command exited with code " ++ tmplInt code)
        stdout := some (jsTrim out)
        stderr := some (jsTrim err)
        exitCode := some (code.getD (-1)) }
  | .spawnError msg =>
    { success := false
      error := some (txt "Failed to execute command: " ++ msg)
      exitCode := some (-1) }

/-- Candidate commands tried by `runTypeCheck`. -/
def typecheckCommands : List Str :=
  [txt "bun run typecheck", txt "pnpm typecheck", txt "npm run typecheck",
   txt "npx tsc --noEmit"]

/-- Candidate commands tried by `runTests`. -/
def testCommands : List Str := [txt "bun test", txt "pnpm test", txt "npm test"]

/-- Candidate commands tried by `runLint`. -/
def lintCommands : List Str :=
  [txt "bun run lint", txt "pnpm lint", txt "npm run lint", txt "npx eslint ."]

/-- The record returned when every candidate command is unavailable. -/
def notConfigured (msg : Str) : CommandResult := { success := true, output := some msg }

/-- The shared candidate loop of `runTypeCheck` / `runTests` / `runLint`:
return the first result that succeeded or whose exit code differs from 127
(command not found); `exec` gives the `executeCommand` result of each
candidate. -/
def tryCommands (exec : Str → CommandResult) (msg : Str) : List Str → CommandResult
  | [] => notConfigured msg
  | c :: cs =>
    let r := exec c
    if r.success || !(r.exitCode == some 127) then r else tryCommands exec msg cs

/-- Embedding of `runTypeCheck` (src/tools/terminal.ts). -/
def runTypeCheck (exec : Str → CommandResult) : CommandResult :=
  tryCommands exec (txt "No type checking configured") typecheckCommands

/-- Embedding of `runTests` (src/tools/terminal.ts). -/
def runTests (exec : Str → CommandResult) : CommandResult :=
  tryCommands exec (txt "No tests configured") testCommands

/-- Embedding of `runLint` (src/tools/terminal.ts). -/
def runLint (exec : Str → CommandResult) : CommandResult :=
  tryCommands exec (txt "No linting configured") lintCommands

/-- Specification-side description of the candidate loop: the result of
the first candidate whose exit code is not 127, if any. -/
def firstAvailable (exec : Str → CommandResult) (cs : List Str) : Option CommandResult :=
  (cs.find? (fun c => !((exec c).exitCode == some 127))).map exec

/-! ### File search (src/tools/filesystem.ts) -/

/-- One entry of the matches list of `searchFiles`. -/
structure SearchMatch where
  file : Str
  line : Nat
  content : Str
  deriving DecidableEq, Repr

/-- Result record of `searchFiles`. -/
structure SearchResult where
  success : Bool
  matchesList : Option (List SearchMatch) := none  -- `matches` in the source; renamed (Lean keyword)
  output : Option Str := none
  error : Option Str := none
  deriving DecidableEq, Repr

/-- Case-insensitive search for the literal pattern in `s` at positions
`≥ start` (index bookkeeping of `RegExp.prototype.test` for a literal,
metacharacter-free pattern compiled with the `i` flag). -/
def findCIAux (pat : Str) : Str → Nat → Option Nat
  | [], i => if pat.isEmpty then some i else none
  | c :: cs, i => if startsWithCI pat (c :: cs) then some i else findCIAux pat cs (i + 1)

/-- First case-insensitive occurrence of `pat` in `line` at or after
`start`, or `none`. -/
def findCIFrom (pat : Str) (line : Str) (start : Nat) : Option Nat :=
  if line.length < start then none else findCIAux pat (line.drop start) start

/-- `regex.test(line)` for a regex with the `g` and `i` flags: the search
starts at the regex object's `lastIndex`; on success `lastIndex` advances
past the match, on failure it resets to 0. -/
def regexTestG (pat line : Str) (lastIndex : Nat) : Bool × Nat :=
  match findCIFrom pat line lastIndex with
  | some i => (true, i + pat.length)
  | none => (false, 0)

/-- JavaScript `content.split('\n')`. -/
def splitNl : Str → List Str
  | [] => [[]]
  | c :: cs =>
    if c = '\n' then [] :: splitNl cs
    else
      match splitNl cs with
      | h :: t => (c :: h) :: t
      | [] => [[c]]

/-- The per-line loop of `searchFiles` for one file: `idx` is the 0-based
line index, `li` the regex object's `lastIndex` carried from previous
`test` calls. -/
def searchLines (pat file : Str) : List Str → Nat → Nat → List SearchMatch × Nat
  | [], _, li => ([], li)
  | l :: ls, idx, li =>
    let hit := regexTestG pat l li
    let rest := searchLines pat file ls (idx + 1) hit.2
    ((if hit.1 then [⟨file, idx + 1, jsTrim l⟩] else []) ++ rest.1, rest.2)

/-- The file loop of `searchFiles` on a directory modelled as a flat list
of files; a file whose content is `none` is unreadable and skipped by the
inner try/catch.  The single regex object, and hence its `lastIndex`, is
shared across all files and lines. -/
def searchFilesGo (pat : Str) : List (Str × Option Str) → Nat → List SearchMatch × Nat
  | [], li => ([], li)
  | (_, none) :: fs, li => searchFilesGo pat fs li
  | (name, some content) :: fs, li =>
    let here := searchLines pat name (splitNl content) 0 li
    let rest := searchFilesGo pat fs here.2
    (here.1 ++ rest.1, rest.2)

/-- Embedding of `searchFiles` (src/tools/filesystem.ts) for a literal,
metacharacter-free pattern. -/
def searchFiles (pat : Str) (files : List (Str × Option Str)) : SearchResult :=
  let ms := (searchFilesGo pat files 0).1
  { success := true
    matchesList := some ms
    output := some (txt "Found " ++ natStr ms.length ++ txt " matches for \"" ++ pat ++ txt "\"") }

/-! ### PRD normalization (src/generate.ts) -/

/-- A task item as it may arrive from parsed JSON: every field possibly
absent. -/
structure PartialPrdItem where
  id : Option Str := none
  category : Option Str := none
  description : Option Str := none
  steps : Option (List Str) := none
  priority : Option Str := none
  passes : Option Bool := none
  deriving DecidableEq, Repr

/-- A partial task list. -/
structure PartialPrd where
  name : Option Str := none
  description : Option Str := none
  items : Option (List PartialPrdItem) := none
  deriving DecidableEq, Repr

/-- A fully normalized task item. -/
structure PrdItem where
  id : Str
  category : Str
  description : Str
  steps : List Str
  priority : Str
  passes : Bool
  deriving DecidableEq, Repr

/-- A fully normalized task list. -/
structure PrdJson where
  name : Str
  description : Option Str
  items : List PrdItem
  deriving DecidableEq, Repr

/-- Normalization of one item at 0-based position `index`
(the body of the `map` inside `normalizePrd`). -/
def normalizeItem (index : Nat) (item : PartialPrdItem) : PrdItem :=
  { id := jsOrStr item.id (natStr (index + 1))
    category := jsOrStr item.category (txt "functional")
    description := jsOrStr item.description []
    steps := item.steps.getD []
    priority := jsOrStr item.priority (txt "medium")
    passes := item.passes.getD false }

/-- JavaScript `Array.prototype.map` with the index argument. -/
def normalizeItems : Nat → List PartialPrdItem → List PrdItem
  | _, [] => []
  | i, it :: rest => normalizeItem i it :: normalizeItems (i + 1) rest

/-- Embedding of `normalizePrd` (src/generate.ts). -/
def normalizePrd (prd : PartialPrd) : PrdJson :=
  { name := jsOrStr prd.name (txt "PRD")
    description := prd.description
    items := normalizeItems 0 (prd.items.getD []) }

/-! ### Tool dispatcher (src/tools/index.ts) -/

/-- The input object of a tool call: the fields `executeTool` reads.
Absent fields are `none`. -/
structure ToolInput where
  path : Option Str := none
  content : Option Str := none
  pattern : Option Str := none
  command : Option Str := none
  message : Option Str := none
  staged : Option Bool := none
  recursive : Option Bool := none
  count : Option Int := none
  deriving DecidableEq, Repr

/-- Result record of `readFile` (`FileReadResult`). -/
structure FileReadResult where
  success : Bool
  content : Option Str := none
  output : Option Str := none
  error : Option Str := none
  deriving DecidableEq, Repr

/-- Result record of `writeFile` (`FileWriteResult`). -/
structure FileWriteResult where
  success : Bool
  path : Option Str := none
  output : Option Str := none
  error : Option Str := none
  deriving DecidableEq, Repr

/-- Result record of `listFiles`. -/
structure ListFilesResult where
  success : Bool
  files : Option (List Str) := none
  output : Option Str := none
  error : Option Str := none
  deriving DecidableEq, Repr

/-- Result record of the git helpers returning `GitResult`. -/
structure GitResult where
  success : Bool
  branch : Option Str := none
  commitHash : Option Str := none
  output : Option Str := none
  error : Option Str := none
  deriving DecidableEq, Repr

/-- The outcome of each underlying operation `executeTool` may invoke for
one dispatch: a returned record, or `Except.error` when the operation
threw (caught by the surrounding try/catch).  The working directory and
the input-derived arguments are absorbed into these outcomes. -/
structure ToolEnv where
  readFile : Except Str FileReadResult := .error []
  writeFile : Except Str FileWriteResult := .error []
  listFiles : Except Str ListFilesResult := .error []
  searchFiles : Except Str SearchResult := .error []
  executeCommand : Except Str CommandResult := .error []
  runTests : Except Str CommandResult := .error []
  runTypeCheck : Except Str CommandResult := .error []
  runLint : Except Str CommandResult := .error []
  getStatus : Except Str CommandResult := .error []
  stageAndCommit : Except Str GitResult := .error []
  getStagedDiff : Except Str CommandResult := .error []
  getUnstagedDiff : Except Str CommandResult := .error []
  getRecentCommits : Except Str CommandResult := .error []

/-- Rendering of one search match line
`` `${m.file}:${m.line}: ${m.content}` ``. -/
def renderMatch (m : SearchMatch) : Str :=
  m.file ++ [':'] ++ natStr m.line ++ txt ": " ++ m.content

/-- The body of the try block of `executeTool`: the switch over the tool
name.  `Except.error` models an exception escaping to the catch. -/
def executeToolCore (name : String) (input : ToolInput) (env : ToolEnv) :
    Except Str Str :=
  if name = "read_file" then
    match env.readFile with
    | .error e => .error e
    | .ok r =>
      if r.success then
        .ok (txt "[Read " ++ natStr (jsOrStr r.content []).length ++
          txt " chars successfully]\n" ++ jsOrStr r.content [])
      else .ok (txt "Error: " ++ tmplStr r.error)
  else if name = "write_file" then
    match env.writeFile with
    | .error e => .error e
    | .ok r =>
      if r.success then .ok (jsOrStr r.output (txt "File written successfully"))
      else .ok (txt "Error: " ++ tmplStr r.error)
  else if name = "list_files" then
    match env.listFiles with
    | .error e => .error e
    | .ok r =>
      match r.success, r.files with
      | true, some fs => .ok (List.intercalate (txt "\n") fs)
      | _, _ => .ok (txt "Error: " ++ tmplStr r.error)
  else if name = "search_files" then
    match env.searchFiles with
    | .error e => .error e
    | .ok r =>
      match r.success, r.matchesList with
      | true, some ms => .ok (List.intercalate (txt "\n") (ms.map renderMatch))
      | _, _ => .ok (txt "Error: " ++ tmplStr r.error)
  else if name = "execute_command" then
    match env.executeCommand with
    | .error e => .error e
    | .ok r =>
      if r.success then .ok (jsOrStr r.stdout (jsOrStr r.output (txt "Command completed")))
      else
        .ok (txt "Error (exit code " ++ tmplInt r.exitCode ++ txt "): " ++
          tmplStr (jsOr2 r.stderr r.error))
  else if name = "run_tests" then
    match env.runTests with
    | .error e => .error e
    | .ok r =>
      if r.success then .ok (jsOrStr r.stdout (jsOrStr r.output (txt "Tests passed")))
      else .ok (txt "Tests failed: " ++ tmplStr (jsOr2 r.stderr r.error))
  else if name = "run_typecheck" then
    match env.runTypeCheck with
    | .error e => .error e
    | .ok r =>
      if r.success then .ok (jsOrStr r.stdout (jsOrStr r.output (txt "Type check passed")))
      else .ok (txt "Type check failed: " ++ tmplStr (jsOr2 r.stderr r.error))
  else if name = "run_lint" then
    match env.runLint with
    | .error e => .error e
    | .ok r =>
      if r.success then .ok (jsOrStr r.stdout (jsOrStr r.output (txt "Lint passed")))
      else .ok (txt "Lint failed: " ++ tmplStr (jsOr2 r.stderr r.error))
  else if name = "git_status" then
    match env.getStatus with
    | .error e => .error e
    | .ok r =>
      if r.success then .ok (jsOrStr r.stdout (txt "No changes"))
      else .ok (txt "Error: " ++ tmplStr r.error)
  else if name = "git_commit" then
    match env.stageAndCommit with
    | .error e => .error e
    | .ok r =>
      if r.success then .ok (jsOrStr r.output (txt "Committed: " ++ tmplStr r.commitHash))
      else .ok (txt "Error: " ++ tmplStr r.error)
  else if name = "git_diff" then
    match (if jsTruthyBool input.staged then env.getStagedDiff else env.getUnstagedDiff) with
    | .error e => .error e
    | .ok r =>
      if r.success then .ok (jsOrStr r.stdout (txt "No changes"))
      else .ok (txt "Error: " ++ tmplStr r.error)
  else if name = "git_log" then
    match env.getRecentCommits with
    | .error e => .error e
    | .ok r =>
      if r.success then .ok (jsOrStr r.stdout (txt "No commits"))
      else .ok (txt "Error: " ++ tmplStr r.error)
  else .ok (txt ("Unknown tool: " ++ name))

/-- Embedding of `executeTool` (src/tools/index.ts): the catch converts a
thrown error into a `Tool execution error: …` string, so a string is
always returned. -/
def executeTool (name : String) (input : ToolInput) (env : ToolEnv) : Str :=
  match executeToolCore name input env with
  | .ok s => s
  | .error e => txt "Tool execution error: " ++ e

/-- The names in the dispatcher's switch (the registry of
`toolDefinitions`). -/
def registeredToolNames : List String :=
  ["read_file", "write_file", "list_files", "search_files", "execute_command",
   "run_tests", "run_typecheck", "run_lint", "git_status", "git_commit",
   "git_diff", "git_log"]

/-! ### Conversation loop (src/agent.ts) -/

/-- A content block of a completion-service response. -/
inductive ContentBlock where
  | text (t : Str)
  | toolUse (id : String) (name : String) (input : Option ToolInput)
  deriving DecidableEq, Repr

/-- One completion-service response: its stop reason and content blocks. -/
structure Response where
  stop_reason : String
  content : List ContentBlock
  deriving DecidableEq, Repr

/-- Message roles. -/
inductive Role where
  | user
  | assistant
  deriving DecidableEq, Repr

/-- A block inside a conversation message. -/
inductive MsgBlock where
  | text (t : Str)
  | toolUse (id : String) (name : String) (input : Option ToolInput)
  | toolResult (tool_use_id : String) (content : Str)
  deriving DecidableEq, Repr

/-- One turn of the conversation history (`MessageParam`). -/
structure Message where
  role : Role
  content : List MsgBlock
  deriving DecidableEq, Repr

/-- The mutable local state of `runIteration` while it processes
responses: the message history, the accumulated output, the heuristic
task description, the files-changed list, the completion flag, and the
per-response `hasToolUse` / `assistantContent` variables. -/
structure LoopState where
  messages : List Message
  fullOutput : Str
  taskDescription : Str
  filesChanged : List Str
  isComplete : Bool
  hasToolUse : Bool
  assistantContent : List MsgBlock
  deriving DecidableEq, Repr

/-- The path contributed to `filesChanged` by one tool-use block:
present exactly when the tool is `write_file`, the input object is
truthy, and its `path` field is a truthy (non-empty) string. -/
def writePathOf (name : String) (inp : Option ToolInput) : Option Str :=
  if name = "write_file" then
    match inp with
    | some i =>
      match i.path with
      | some p => if p.isEmpty then none else some p
      | none => none
    | none => none
  else none

/-- Processing of the content blocks of one response, in order
(the `for` loop of `runIteration`).  `marker` is the completion-marker
literal (defined in types.ts, outside this repository part), `exec` the
result of `executeTool` for each tool call. -/
def processBlocks (marker : Str) (exec : String → Option ToolInput → Str) :
    List ContentBlock → LoopState → LoopState
  | [], st => st
  | .text t :: bs, st =>
    processBlocks marker exec bs
      { st with
        fullOutput := st.fullOutput ++ t ++ ['\n']
        isComplete := st.isComplete || jsIncludes marker t
        taskDescription :=
          match firstMatchAux heurAt t with
          | some g => if st.taskDescription.isEmpty then jsTrim g else st.taskDescription
          | none => st.taskDescription
        assistantContent := st.assistantContent ++ [MsgBlock.text t] }
  | .toolUse id name inp :: bs, st =>
    processBlocks marker exec bs
      { st with
        hasToolUse := true
        filesChanged := st.filesChanged ++ (writePathOf name inp).toList
        messages := st.messages ++
          [⟨Role.assistant, [MsgBlock.toolUse id name inp]⟩,
           ⟨Role.user, [MsgBlock.toolResult id (exec name inp)]⟩] }

/-- The agentic `while (true)` loop of `runIteration`, driven by the list
of responses the completion service returns to the successive `create`
calls.  An empty remainder models the next `create` call throwing (the
service error path); the returned flag is `true` when the loop exited
normally via one of its `break`s. -/
def runLoop (marker : Str) (exec : String → Option ToolInput → Str) :
    List Response → LoopState → LoopState × Bool
  | [], st => (st, false)
  | r :: rest, st =>
    let st1 := processBlocks marker exec r.content
      { st with hasToolUse := false, assistantContent := [] }
    if !st1.hasToolUse then
      (if !st1.assistantContent.isEmpty then
        { st1 with messages := st1.messages ++ [⟨Role.assistant, st1.assistantContent⟩] }
       else st1, true)
    else if r.stop_reason = "end_turn" then (st1, true)
    else runLoop marker exec rest st1

/-- The initial state: the single user instruction message and empty
accumulators. -/
def initState : LoopState :=
  { messages := [⟨Role.user, [MsgBlock.text (txt "Analyze the PRD and progress, then implement the highest-priority incomplete task. Remember to run feedback loops and commit your changes.")]⟩]
    fullOutput := []
    taskDescription := []
    filesChanged := []
    isComplete := false
    hasToolUse := false
    assistantContent := [] }

/-- The result record of `runIteration`; absent fields are `none`. -/
structure IterationResult where
  success : Bool
  isComplete : Bool
  taskDescription : Option Str := none
  decisions : Option (List Str) := none
  summary : Option Str := none
  filesChanged : Option (List Str) := none
  error : Option Str := none
  output : Option Str := none
  deriving DecidableEq, Repr

/-- Embedding of `runIteration` (src/agent.ts).  `responses` is the
sequence of completion-service responses; if the loop would call the
service again after exhausting them, that call throws with message
`errMsg` and the catch path returns a failure result. -/
def runIteration (marker : Str) (exec : String → Option ToolInput → Str)
    (responses : List Response) (errMsg : Str) : IterationResult :=
  match runLoop marker exec responses initState with
  | (st, true) =>
    let parsed := parseStructuredOutput st.fullOutput
    let taskDescription :=
      if !parsed.taskDescription.isEmpty then parsed.taskDescription else st.taskDescription
    { success := true
      isComplete := st.isComplete
      taskDescription := some (jsOrStr (some taskDescription) (txt "Task completed"))
      decisions := some (if 0 < parsed.decisions.length then parsed.decisions else [])
      summary := some (if !parsed.summary.isEmpty then parsed.summary else [])
      filesChanged := some st.filesChanged
      output := some st.fullOutput }
  | (st, false) =>
    { success := false
      isComplete := false
      error := some errMsg
      output := some st.fullOutput }

/-! ### Trace segmentation for the tool-use/result pairing invariant -/

/-- The messages appended to the history while processing the blocks of
one response: an assistant turn carrying each tool-use block immediately
followed by a user turn carrying the matching tool result. -/
def segOf (exec : String → Option ToolInput → Str) (blocks : List ContentBlock) :
    List Message :=
  blocks.flatMap fun b =>
    match b with
    | .text _ => []
    | .toolUse id name inp =>
      [⟨Role.assistant, [MsgBlock.toolUse id name inp]⟩,
       ⟨Role.user, [MsgBlock.toolResult id (exec name inp)]⟩]

/-- The per-service-call segments of a run: the messages appended between
consecutive completion-service calls (the final segment also carries the
closing assistant text message when one is pushed). -/
def runSegs (marker : Str) (exec : String → Option ToolInput → Str) :
    List Response → LoopState → List (List Message)
  | [], _ => []
  | r :: rest, st =>
    let st1 := processBlocks marker exec r.content
      { st with hasToolUse := false, assistantContent := [] }
    if !st1.hasToolUse then
      [segOf exec r.content ++
        (if !st1.assistantContent.isEmpty then [⟨Role.assistant, st1.assistantContent⟩] else [])]
    else if r.stop_reason = "end_turn" then [segOf exec r.content]
    else segOf exec r.content :: runSegs marker exec rest st1

/-- All blocks of a message list, flattened in order. -/
def flattenMsgs (msgs : List Message) : List MsgBlock :=
  msgs.flatMap Message.content

/-- The ids of the tool-use blocks of a response, in order. -/
def toolUseIds (blocks : List ContentBlock) : List String :=
  blocks.filterMap fun b =>
    match b with
    | .toolUse id _ _ => some id
    | .text _ => none

/-- Number of tool-result blocks of `l` referencing `id`. -/
def countResults (id : String) (l : List MsgBlock) : Nat :=
  l.countP fun b =>
    match b with
    | .toolResult tid _ => tid == id
    | _ => false

/-- The pairing invariant on the block sequence appended between two
completion-service calls: every tool-use block is followed, within the
sequence, by exactly one tool-result block referencing its id. -/
def SegPaired (l : List MsgBlock) : Prop :=
  ∀ pre id name inp suf, l = pre ++ MsgBlock.toolUse id name inp :: suf →
    countResults id suf = 1

/-- The flattened block sequence of a segment, computed directly from
the response blocks. -/
def segBlocks (exec : String → Option ToolInput → Str) (blocks : List ContentBlock) :
    List MsgBlock :=
  blocks.flatMap fun b =>
    match b with
    | .text _ => []
    | .toolUse id name inp =>
      [MsgBlock.toolUse id name inp, MsgBlock.toolResult id (exec name inp)]

/-- A tool-use path extracted from a history block (the claim-side view
of the files-changed tracking). -/
def writePathOfMsgBlock (b : MsgBlock) : Option Str :=
  match b with
  | .toolUse _ name inp => writePathOf name inp
  | _ => none

/-- Is a response block a tool-use block? -/
def isToolUseB : ContentBlock → Bool
  | .toolUse _ _ _ => true
  | .text _ => false

/-- The text blocks of a response, as they are pushed onto
`assistantContent`. -/
def textBlocksOf (bs : List ContentBlock) : List MsgBlock :=
  bs.filterMap fun b =>
    match b with
    | .text t => some (MsgBlock.text t)
    | .toolUse _ _ _ => none

/-! ### Concrete scenarios used by witnesses and counterexamples -/

/-- An environment in which every candidate command is missing
(exit code 127). -/
def execAll127 : Str → CommandResult :=
  fun _ => { success := false, error := some (txt "command not found"), exitCode := some 127 }

/-- A tool executor returning a constant result string. -/
def execConst : String → Option ToolInput → Str := fun _ _ => txt "ok"

/-- A partial task list with one item carrying an id and one empty item. -/
def prdTwoItems : PartialPrd := { items := some [{ id := some (txt "k") }, {}] }

/-- A run in which the model writes a file and then finishes. -/
def writeThenDone : List Response :=
  [⟨"tool_use", [ContentBlock.toolUse "t1" "write_file" (some { path := some (txt "a.txt") })]⟩,
   ⟨"end_turn", [ContentBlock.text (txt "done")]⟩]

/-- A run with two distinct tool uses in one response, then a final text
response. -/
def twoToolsThenDone : List Response :=
  [⟨"tool_use", [ContentBlock.toolUse "t1" "read_file" none,
                 ContentBlock.toolUse "t2" "git_status" none]⟩,
   ⟨"end_turn", [ContentBlock.text (txt "done")]⟩]

/-- A run that emits the marker text and a tool use, after which the next
service call fails. -/
def markerThenCrash : List Response :=
  [⟨"tool_use", [ContentBlock.text (txt "DONE"),
                 ContentBlock.toolUse "t1" "read_file" none]⟩]

/-- A single plain text response. -/
def plainTextDone : List Response := [⟨"end_turn", [ContentBlock.text (txt "hi")]⟩]

/-- A single text response containing the marker `OK!`. -/
def markerTextDone : List Response := [⟨"end_turn", [ContentBlock.text (txt "all OK!")]⟩]

/-! ## Supporting lemmas -/

/-- A decimal digit list produced by `Nat.toDigitsCore` from a non-empty
accumulator is non-empty. -/
theorem toDigitsCore_ne_nil (b : Nat) :
    ∀ (fuel n : Nat) (ds : List Char), ds ≠ [] → Nat.toDigitsCore b fuel n ds ≠ [] := by
  intro fuel
  induction fuel with
  | zero => intro n ds h; simpa [Nat.toDigitsCore] using h
  | succ fuel ih =>
    intro n ds h
    simp only [Nat.toDigitsCore]
    split
    · simp
    · exact ih _ _ (by simp)

/-- `Nat.toDigits` never returns the empty list. -/
theorem toDigits_ne_nil (b n : Nat) : Nat.toDigits b n ≠ [] := by
  simp only [Nat.toDigits, Nat.toDigitsCore]
  split
  · simp
  · exact toDigitsCore_ne_nil _ _ _ _ (by simp)

/-- The decimal rendering of a natural number is a non-empty string. -/
theorem natStr_ne_nil (n : Nat) : natStr n ≠ [] :=
  toDigits_ne_nil 10 n

/-- `hasPrefixB` decides list prefixing. -/
theorem hasPrefixB_iff (p s : Str) : hasPrefixB p s = true ↔ p <+: s := by
  induction p generalizing s with
  | nil => simp [hasPrefixB]
  | cons a ps ih =>
    cases s with
    | nil => simp [hasPrefixB]
    | cons c cs => simp [hasPrefixB, ih]

/-- `jsIncludes` decides substring occurrence. -/
theorem jsIncludes_iff (p s : Str) : jsIncludes p s = true ↔ p <:+: s := by
  induction s with
  | nil =>
    cases p with
    | nil => simp [jsIncludes, hasPrefixB]
    | cons c cs => simp [jsIncludes, hasPrefixB]
  | cons c cs ih =>
    rw [List.infix_cons_iff]
    simp [jsIncludes, hasPrefixB_iff, ih]

/-- A newline-free prefix of `a ++ '\n' :: b` is a prefix of `a`. -/
theorem prefix_of_append_nl {m : Str} (hm : '\n' ∉ m) :
    ∀ {a b : Str}, m <+: a ++ '\n' :: b → m <+: a := by
  induction m with
  | nil => intro a b _; exact List.nil_prefix
  | cons c ms ih =>
    intro a b h
    cases a with
    | nil =>
      obtain ⟨h1, -⟩ := List.cons_prefix_cons.mp (by simpa using h)
      subst h1
      exact absurd (List.mem_cons_self _ _) hm
    | cons x xs =>
      rw [List.cons_append, List.cons_prefix_cons] at h
      exact List.cons_prefix_cons.mpr
        ⟨h.1, ih (fun hmem => hm (List.mem_cons_of_mem _ hmem)) h.2⟩

/-- A list prefix is in particular an infix. -/
theorem infix_of_pfx {m l : Str} (h : m <+: l) : m <:+: l := by
  rcases h with ⟨t, ht⟩
  exact ⟨[], t, by simpa using ht⟩

/-- An infix of `a` is an infix of `a ++ z`. -/
theorem infix_append_r {m a : Str} (h : m <:+: a) (z : Str) : m <:+: a ++ z := by
  rcases h with ⟨s, t, hst⟩
  exact ⟨s, t ++ z, by rw [← hst]; simp [List.append_assoc]⟩

/-- An infix of `b` is an infix of `z ++ b`. -/
theorem infix_append_l {m b : Str} (h : m <:+: b) (z : Str) : m <:+: z ++ b := by
  rcases h with ⟨s, t, hst⟩
  exact ⟨z ++ s, t, by rw [← hst]; simp [List.append_assoc]⟩

/-- A non-empty newline-free infix of `a ++ '\n' :: b` lies entirely in
`a` or entirely in `b`. -/
theorem infix_append_nl {m : Str} (hm : '\n' ∉ m) (hne : m ≠ []) :
    ∀ (a b : Str), m <:+: a ++ '\n' :: b ↔ m <:+: a ∨ m <:+: b := by
  intro a
  induction a with
  | nil =>
    intro b
    constructor
    · intro h
      rcases List.infix_cons_iff.mp h with hp | hi
      · cases m with
        | nil => exact absurd rfl hne
        | cons c ms =>
          obtain ⟨h1, -⟩ := List.cons_prefix_cons.mp (by simpa using hp)
          subst h1
          exact absurd (List.mem_cons_self _ _) hm
      · exact Or.inr hi
    · rintro (h | h)
      · rw [List.infix_nil] at h; exact absurd h hne
      · exact List.infix_cons h
  | cons x xs ih =>
    intro b
    constructor
    · intro h
      rw [List.cons_append, List.infix_cons_iff] at h
      rcases h with hp | hi
      · refine Or.inl (infix_of_pfx ?_)
        cases m with
        | nil => exact List.nil_prefix
        | cons c ms =>
          rw [List.cons_prefix_cons] at hp
          exact List.cons_prefix_cons.mpr
            ⟨hp.1, prefix_of_append_nl (fun hmem => hm (List.mem_cons_of_mem _ hmem)) hp.2⟩
      · rcases (ih b).mp hi with h1 | h2
        · exact Or.inl (List.infix_cons h1)
        · exact Or.inr h2
    · rintro (h | h)
      · exact infix_append_r h _
      · exact infix_append_l (List.infix_cons h) _

/-- A non-empty newline-free infix of `a ++ ['\n']` is an infix of `a`. -/
theorem infix_append_nl_nil {m : Str} (hm : '\n' ∉ m) (hne : m ≠ []) (a : Str) :
    m <:+: a ++ ['\n'] ↔ m <:+: a := by
  rw [show a ++ ['\n'] = a ++ '\n' :: [] from rfl, infix_append_nl hm hne]
  simp [List.infix_nil, hne]

/-- Appending one more line (text plus terminating newline) to a buffer of
complete lines: a newline-free marker occurs in the extended buffer iff it
occurs in the old buffer or in the new text. -/
theorem infix_out_step {m F t : Str} (hm : '\n' ∉ m) (hne : m ≠ [])
    (hF : F = [] ∨ ∃ l, F = l ++ ['\n']) :
    m <:+: F ++ (t ++ ['\n']) ↔ m <:+: F ∨ m <:+: t := by
  rcases hF with hF | ⟨l, hF⟩
  · subst hF
    rw [List.nil_append, infix_append_nl_nil hm hne]
    simp [List.infix_nil, hne]
  · subst hF
    rw [List.append_assoc, show ['\n'] ++ (t ++ ['\n']) = '\n' :: (t ++ ['\n']) from rfl,
      infix_append_nl hm hne, infix_append_nl_nil hm hne, infix_append_nl_nil hm hne]

/-! ## Claim theorems -/

/-- C7: a command exceeding its timeout is killed and reported with
success `false`, exit code `-1` and an error containing
`timed out after <ms>ms`; a command that closes with exit code `n` is
reported with that exit code, trimmed stdout/stderr, and success exactly
when `n = 0`. -/
theorem executeCommand_timeout_and_exit (t d : Nat) (po pe out err : Str) (n : Int) :
    ((executeCommand t d (.timeout po pe)).success = false ∧
     (executeCommand t d (.timeout po pe)).exitCode = some (-1) ∧
     ∃ e, (executeCommand t d (.timeout po pe)).error = some e ∧
       (txt "timed out after " ++ natStr t ++ txt "ms") <:+: e) ∧
    ((executeCommand t d (.closed (some n) out err)).exitCode = some n ∧
     (executeCommand t d (.closed (some n) out err)).stdout = some (jsTrim out) ∧
     (executeCommand t d (.closed (some n) out err)).stderr = some (jsTrim err) ∧
     ((executeCommand t d (.closed (some n) out err)).success = true ↔ n = 0)) := by
  constructor
  · refine ⟨rfl, rfl, txt "Command timed out after " ++ natStr t ++ txt "ms", rfl, ?_⟩
    refine ⟨txt "Command ", [], ?_⟩
    rw [List.append_nil,
      show txt "Command timed out after " = txt "Command " ++ txt "timed out after " by decide]
    simp [List.append_assoc]
  · by_cases hn : n = 0
    · subst hn
      refine ⟨?_, ?_, ?_, ?_⟩ <;> simp [executeCommand]
    · have hcode : ¬ (some n = some (0 : Int)) := by simpa using hn
      refine ⟨?_, ?_, ?_, ?_⟩ <;> simp [executeCommand, hcode, hn]

/-- C6: each check runner returns the result of the first candidate
command whose exit code is not 127, and a successful `not configured`
record when every candidate reports 127; `hreal` states that the
results come from `executeCommand` (the exit code is present and success
means exit code 0). -/
theorem checkRunners_first_available (exec : Str → CommandResult)
    (hreal : ∀ c, ∃ n, (exec c).exitCode = some n ∧ ((exec c).success = true ↔ n = 0)) :
    runTypeCheck exec =
      (firstAvailable exec typecheckCommands).getD (notConfigured (txt "No type checking configured")) ∧
    runTests exec =
      (firstAvailable exec testCommands).getD (notConfigured (txt "No tests configured")) ∧
    runLint exec =
      (firstAvailable exec lintCommands).getD (notConfigured (txt "No linting configured")) := by
  have key : ∀ (msg : Str) (cs : List Str),
      tryCommands exec msg cs = (firstAvailable exec cs).getD (notConfigured msg) := by
    intro msg cs
    induction cs with
    | nil => rfl
    | cons c cs ih =>
      obtain ⟨n, hn, hs⟩ := hreal c
      by_cases h127 : (exec c).exitCode == some 127
      · have hn127 : n = 127 := by
          rw [hn] at h127
          simpa using h127
      -- the candidate is unavailable: success is impossible and the loop moves on
        have hsf : (exec c).success = false := by
          rcases Bool.eq_false_or_eq_true (exec c).success with h | h
          · exact absurd (hn127 ▸ hs.mp h) (by decide)
          · exact h
        simp only [tryCommands, firstAvailable, List.find?, hsf, h127, Bool.false_or,
          Bool.not_true, Bool.false_eq_true, if_false]
        exact ih
      · have h127' : ((exec c).exitCode == some 127) = false := by
          simpa using h127
        simp [tryCommands, firstAvailable, List.find?, h127']
  exact ⟨key _ _, key _ _, key _ _⟩

/-- `jsOrStr` with a non-empty default never yields the empty string. -/
theorem jsOrStr_ne_nil (a : Option Str) (d : Str) (hd : d ≠ []) : jsOrStr a d ≠ [] := by
  unfold jsOrStr
  rcases a with _ | s
  · exact hd
  · by_cases hs : s.isEmpty = true
    · simpa [hs] using hd
    · simpa [hs] using fun he => hs (by simp [he])

/-- C8: normalization gives every item a non-empty id, defaulting to the
1-based index rendered as a string when the id is absent or empty, never
overwriting a non-empty id; priority defaults to `medium` and passes to
`false`. -/
theorem normalizePrd_defaults (prd : PartialPrd) (i : Nat) (item₀ : PartialPrdItem)
    (h : (prd.items.getD []).get? i = some item₀) :
    ∃ item, (normalizePrd prd).items.get? i = some item ∧
      item.id ≠ [] ∧
      ((item₀.id = none ∨ item₀.id = some []) → item.id = natStr (i + 1)) ∧
      (∀ s, item₀.id = some s → s ≠ [] → item.id = s) ∧
      ((item₀.priority = none ∨ item₀.priority = some []) → item.priority = txt "medium") ∧
      (item₀.passes = none → item.passes = false) := by
  have hget : ∀ (items : List PartialPrdItem) (k j : Nat),
      (normalizeItems k items).get? j = (items.get? j).map (normalizeItem (k + j)) := by
    intro items
    induction items with
    | nil => intro k j; simp [normalizeItems]
    | cons it rest ih =>
      intro k j
      cases j with
      | zero => simp [normalizeItems]
      | succ j =>
        have hk : k + 1 + j = k + (j + 1) := by omega
        simpa [normalizeItems, hk] using ih (k + 1) j
  refine ⟨normalizeItem i item₀, ?_, ?_, ?_, ?_, ?_, ?_⟩
  · rw [show (normalizePrd prd).items = normalizeItems 0 (prd.items.getD []) from rfl,
      hget _ 0 i, h]
    simp
  · exact jsOrStr_ne_nil _ _ (natStr_ne_nil (i + 1))
  · rintro (hid | hid) <;> simp [normalizeItem, jsOrStr, hid]
  · intro s hid hs
    simp [normalizeItem, jsOrStr, hid, List.isEmpty_iff, hs]
  · rintro (hp | hp) <;> simp [normalizeItem, jsOrStr, hp]
  · intro hp; simp [normalizeItem, hp]

/-- C5 (code bug): the single `RegExp` compiled with the `g` flag carries
its `lastIndex` across `regex.test` calls, so a line matching the pattern
can be skipped: searching `aa` over the three lines `aa`/`aa`/`aa`
reports matches on lines 1 and 3 only, although line 2 matches too.
Unreadable files are skipped, and matching is case-insensitive with
1-based line numbers, as the claim states. -/
theorem searchFiles_stateful_regex_bug :
    (searchFiles (txt "aa") [(txt "f.txt", some (txt "aa\naa\naa"))]).matchesList =
      some [⟨txt "f.txt", 1, txt "aa"⟩, ⟨txt "f.txt", 3, txt "aa"⟩] ∧
    (searchFiles (txt "aa") [(txt "bin", none), (txt "f", some (txt "xaA"))]).matchesList =
      some [⟨txt "f", 1, txt "xaA"⟩] := by
  exact ⟨by decide, by decide⟩

/-- C4 (counterexample): a text containing `## Completed: Fix login bug`
need not yield the task description `Fix login bug` — the whole rest of
the heading line is captured. -/
theorem parseStructuredOutput_contains_counterexample :
    jsIncludes (txt "## Completed: Fix login bug") (txt "## Completed: Fix login bug today") = true ∧
    (parseStructuredOutput (txt "## Completed: Fix login bug today")).taskDescription ≠
      txt "Fix login bug" ∧
    (parseStructuredOutput (txt "## Completed: Fix login bug today")).taskDescription =
      txt "Fix login bug today" := by
  exact ⟨by decide, by decide, by decide⟩

/-- C4 (amended): the parser is total and lenient: the exact heading line
`## Completed: Fix login bug` yields `Fix login bug`; a Decisions block
containing only `- None` yields no decisions; text with no recognized
headings yields all three fields empty; bullet items are collected in
order with `none` items dropped; and every reported decision is non-empty
and distinct from `none` case-insensitively. -/
theorem parseStructuredOutput_leniency :
    (parseStructuredOutput (txt "## Completed: Fix login bug")).taskDescription =
      txt "Fix login bug" ∧
    (parseStructuredOutput (txt "## Decisions\n- None")).decisions = [] ∧
    parseStructuredOutput (txt "Nothing here") = ⟨[], [], []⟩ ∧
    (parseStructuredOutput (txt "## Decisions\n- Chose A\n- None\n* B\nplain\n## Other")).decisions =
      [txt "Chose A", txt "B"] ∧
    ∀ s d, d ∈ (parseStructuredOutput s).decisions → d ≠ [] ∧ lcStr d ≠ txt "none" := by
  refine ⟨by decide, by decide, by decide, by decide, ?_⟩
  intro s d hd
  simp only [parseStructuredOutput] at hd
  split at hd
  · split at hd
    · simp at hd
    · rw [List.mem_filter] at hd
      have h2 := hd.2
      rw [Bool.and_eq_true, Bool.not_eq_true', Bool.not_eq_true'] at h2
      exact ⟨by simpa using h2.1, by simpa using h2.2⟩
  · simp at hd

/-- Witness for the universally quantified part of the C4 theorem at a
concrete decision. -/
theorem parseStructuredOutput_leniency_witness :
    txt "B" ∈ (parseStructuredOutput
      (txt "## Decisions\n- Chose A\n- None\n* B\nplain\n## Other")).decisions ∧
    (txt "B" ≠ [] ∧ lcStr (txt "B") ≠ txt "none") :=
  ⟨by decide, parseStructuredOutput_leniency.2.2.2.2
    (txt "## Decisions\n- Chose A\n- None\n* B\nplain\n## Other") (txt "B") (by decide)⟩

/-- Witness for C6 at an environment in which every candidate command is
missing. -/
theorem checkRunners_first_available_witness :
    (∀ c, ∃ n, (execAll127 c).exitCode = some n ∧ ((execAll127 c).success = true ↔ n = 0)) ∧
    (runTypeCheck execAll127 =
      (firstAvailable execAll127 typecheckCommands).getD (notConfigured (txt "No type checking configured")) ∧
    runTests execAll127 =
      (firstAvailable execAll127 testCommands).getD (notConfigured (txt "No tests configured")) ∧
    runLint execAll127 =
      (firstAvailable execAll127 lintCommands).getD (notConfigured (txt "No linting configured"))) :=
  ⟨fun c => ⟨127, rfl, by simp [execAll127]⟩,
   checkRunners_first_available execAll127 (fun c => ⟨127, rfl, by simp [execAll127]⟩)⟩

/-- Witness for C8 at a concrete two-item task list, read at the second
item (which is entirely empty). -/
theorem normalizePrd_defaults_witness :
    (prdTwoItems.items.getD []).get? 1 = some {} ∧
    ∃ item, (normalizePrd prdTwoItems).items.get? 1 = some item ∧
      item.id ≠ [] ∧
      ((({} : PartialPrdItem).id = none ∨ ({} : PartialPrdItem).id = some []) →
        item.id = natStr (1 + 1)) ∧
      (∀ s, ({} : PartialPrdItem).id = some s → s ≠ [] → item.id = s) ∧
      ((({} : PartialPrdItem).priority = none ∨ ({} : PartialPrdItem).priority = some []) →
        item.priority = txt "medium") ∧
      (({} : PartialPrdItem).passes = none → item.passes = false) :=
  ⟨by decide, normalizePrd_defaults prdTwoItems 1 {} (by decide)⟩

/-- The dispatcher's switch falls through to the default branch for an
unregistered tool name. -/
theorem executeToolCore_unknown (name : String) (input : ToolInput) (env : ToolEnv)
    (h : name ∉ registeredToolNames) :
    executeToolCore name input env = Except.ok (txt ("Unknown tool: " ++ name)) := by
  have h1 : ¬ name = "read_file" := fun e => h (by rw [e]; decide)
  have h2 : ¬ name = "write_file" := fun e => h (by rw [e]; decide)
  have h3 : ¬ name = "list_files" := fun e => h (by rw [e]; decide)
  have h4 : ¬ name = "search_files" := fun e => h (by rw [e]; decide)
  have h5 : ¬ name = "execute_command" := fun e => h (by rw [e]; decide)
  have h6 : ¬ name = "run_tests" := fun e => h (by rw [e]; decide)
  have h7 : ¬ name = "run_typecheck" := fun e => h (by rw [e]; decide)
  have h8 : ¬ name = "run_lint" := fun e => h (by rw [e]; decide)
  have h9 : ¬ name = "git_status" := fun e => h (by rw [e]; decide)
  have h10 : ¬ name = "git_commit" := fun e => h (by rw [e]; decide)
  have h11 : ¬ name = "git_diff" := fun e => h (by rw [e]; decide)
  have h12 : ¬ name = "git_log" := fun e => h (by rw [e]; decide)
  unfold executeToolCore
  rw [if_neg h1, if_neg h2, if_neg h3, if_neg h4, if_neg h5, if_neg h6, if_neg h7,
    if_neg h8, if_neg h9, if_neg h10, if_neg h11, if_neg h12]

/-- `p` is a prefix of `(p ++ r) ++ x`. -/
theorem pfx_helper (p r x : Str) : p <+: (p ++ r) ++ x := by
  rw [List.append_assoc]
  exact List.prefix_append _ _

/-- C1 (amended): the dispatcher always returns a string; an unrecognized
name yields exactly `Unknown tool: <name>`; a failing underlying
operation yields a string beginning with `Error:` for the file, search
and git tools, with `Error (exit code` for `execute_command`, and with
`Tests failed:` / `Type check failed:` / `Lint failed:` for the check
runners; and an exception escaping a tool is caught and returned as a
string beginning `Tool execution error:`. -/
theorem executeTool_error_reporting (name : String) (input : ToolInput) (env : ToolEnv) :
    (name ∉ registeredToolNames → executeTool name input env = txt ("Unknown tool: " ++ name)) ∧
    (∀ e, executeToolCore name input env = Except.error e →
      executeTool name input env = txt "Tool execution error: " ++ e) ∧
    (∀ r, env.readFile = .ok r → r.success = false →
      txt "Error:" <+: executeTool "read_file" input env) ∧
    (∀ r, env.writeFile = .ok r → r.success = false →
      txt "Error:" <+: executeTool "write_file" input env) ∧
    (∀ r, env.listFiles = .ok r → r.success = false →
      txt "Error:" <+: executeTool "list_files" input env) ∧
    (∀ r, env.searchFiles = .ok r → r.success = false →
      txt "Error:" <+: executeTool "search_files" input env) ∧
    (∀ r, env.executeCommand = .ok r → r.success = false →
      txt "Error (exit code " <+: executeTool "execute_command" input env) ∧
    (∀ r, env.runTests = .ok r → r.success = false →
      txt "Tests failed:" <+: executeTool "run_tests" input env) ∧
    (∀ r, env.runTypeCheck = .ok r → r.success = false →
      txt "Type check failed:" <+: executeTool "run_typecheck" input env) ∧
    (∀ r, env.runLint = .ok r → r.success = false →
      txt "Lint failed:" <+: executeTool "run_lint" input env) ∧
    (∀ r, env.getStatus = .ok r → r.success = false →
      txt "Error:" <+: executeTool "git_status" input env) ∧
    (∀ r, env.stageAndCommit = .ok r → r.success = false →
      txt "Error:" <+: executeTool "git_commit" input env) ∧
    (∀ r, env.getStagedDiff = .ok r → r.success = false → jsTruthyBool input.staged = true →
      txt "Error:" <+: executeTool "git_diff" input env) ∧
    (∀ r, env.getUnstagedDiff = .ok r → r.success = false → jsTruthyBool input.staged = false →
      txt "Error:" <+: executeTool "git_diff" input env) ∧
    (∀ r, env.getRecentCommits = .ok r → r.success = false →
      txt "Error:" <+: executeTool "git_log" input env) := by
  refine ⟨?_, ?_, ?_, ?_, ?_, ?_, ?_, ?_, ?_, ?_, ?_, ?_, ?_, ?_, ?_⟩
  · intro h
    simp [executeTool, executeToolCore_unknown name input env h]
  · intro e he
    simp [executeTool, he]
  · intro r hr hf
    have : executeTool "read_file" input env = txt "Error: " ++ tmplStr r.error := by
      simp [executeTool, executeToolCore, hr, hf]
    rw [this, show txt "Error: " = txt "Error:" ++ [' '] by decide]
    exact pfx_helper _ _ _
  · intro r hr hf
    have : executeTool "write_file" input env = txt "Error: " ++ tmplStr r.error := by
      simp [executeTool, executeToolCore, hr, hf]
    rw [this, show txt "Error: " = txt "Error:" ++ [' '] by decide]
    exact pfx_helper _ _ _
  · intro r hr hf
    have : executeTool "list_files" input env = txt "Error: " ++ tmplStr r.error := by
      simp [executeTool, executeToolCore, hr, hf]
    rw [this, show txt "Error: " = txt "Error:" ++ [' '] by decide]
    exact pfx_helper _ _ _
  · intro r hr hf
    have : executeTool "search_files" input env = txt "Error: " ++ tmplStr r.error := by
      simp [executeTool, executeToolCore, hr, hf]
    rw [this, show txt "Error: " = txt "Error:" ++ [' '] by decide]
    exact pfx_helper _ _ _
  · intro r hr hf
    have : executeTool "execute_command" input env =
        txt "Error (exit code " ++ (tmplInt r.exitCode ++ (txt "): " ++ tmplStr (jsOr2 r.stderr r.error))) := by
      simp [executeTool, executeToolCore, hr, hf]
    rw [this]
    exact List.prefix_append _ _
  · intro r hr hf
    have : executeTool "run_tests" input env =
        txt "Tests failed: " ++ tmplStr (jsOr2 r.stderr r.error) := by
      simp [executeTool, executeToolCore, hr, hf]
    rw [this, show txt "Tests failed: " = txt "Tests failed:" ++ [' '] by decide]
    exact pfx_helper _ _ _
  · intro r hr hf
    have : executeTool "run_typecheck" input env =
        txt "Type check failed: " ++ tmplStr (jsOr2 r.stderr r.error) := by
      simp [executeTool, executeToolCore, hr, hf]
    rw [this, show txt "Type check failed: " = txt "Type check failed:" ++ [' '] by decide]
    exact pfx_helper _ _ _
  · intro r hr hf
    have : executeTool "run_lint" input env =
        txt "Lint failed: " ++ tmplStr (jsOr2 r.stderr r.error) := by
      simp [executeTool, executeToolCore, hr, hf]
    rw [this, show txt "Lint failed: " = txt "Lint failed:" ++ [' '] by decide]
    exact pfx_helper _ _ _
  · intro r hr hf
    have : executeTool "git_status" input env = txt "Error: " ++ tmplStr r.error := by
      simp [executeTool, executeToolCore, hr, hf]
    rw [this, show txt "Error: " = txt "Error:" ++ [' '] by decide]
    exact pfx_helper _ _ _
  · intro r hr hf
    have : executeTool "git_commit" input env = txt "Error: " ++ tmplStr r.error := by
      simp [executeTool, executeToolCore, hr, hf]
    rw [this, show txt "Error: " = txt "Error:" ++ [' '] by decide]
    exact pfx_helper _ _ _
  · intro r hr hf hst
    have : executeTool "git_diff" input env = txt "Error: " ++ tmplStr r.error := by
      simp [executeTool, executeToolCore, hst, hr, hf]
    rw [this, show txt "Error: " = txt "Error:" ++ [' '] by decide]
    exact pfx_helper _ _ _
  · intro r hr hf hst
    have : executeTool "git_diff" input env = txt "Error: " ++ tmplStr r.error := by
      simp [executeTool, executeToolCore, hst, hr, hf]
    rw [this, show txt "Error: " = txt "Error:" ++ [' '] by decide]
    exact pfx_helper _ _ _
  · intro r hr hf
    have : executeTool "git_log" input env = txt "Error: " ++ tmplStr r.error := by
      simp [executeTool, executeToolCore, hr, hf]
    rw [this, show txt "Error: " = txt "Error:" ++ [' '] by decide]
    exact pfx_helper _ _ _

/-- C1 (counterexample): a failing `run_tests` returns a string beginning
with `Tests failed:`, not with `Error:`. -/
theorem executeTool_error_prefix_counterexample :
    executeTool "run_tests" {}
      { runTests := .ok { success := false, stderr := some (txt "2 failed") } } =
      txt "Tests failed: 2 failed" ∧
    ¬ txt "Error:" <+: executeTool "run_tests" {}
      { runTests := .ok { success := false, stderr := some (txt "2 failed") } } :=
  ⟨by decide, by decide⟩

/-- Witness for C1 at an unregistered name and at a failing write. -/
theorem executeTool_error_reporting_witness :
    executeTool "not_a_tool" {} {} = txt ("Unknown tool: " ++ "not_a_tool") ∧
    txt "Error:" <+: executeTool "write_file" {}
      { writeFile := .ok { success := false, error := some (txt "boom") } } :=
  ⟨(executeTool_error_reporting "not_a_tool" {} {}).1 (by decide),
   (executeTool_error_reporting "write_file" {}
      { writeFile := .ok { success := false, error := some (txt "boom") } }).2.2.2.1
      { success := false, error := some (txt "boom") } rfl rfl⟩

/-! ## Structure of the conversation loop -/

/-- Processing a response appends exactly the tool-use/tool-result
message pairs of its tool-use blocks. -/
theorem processBlocks_messages (marker : Str) (exec : String → Option ToolInput → Str) :
    ∀ (bs : List ContentBlock) (st : LoopState),
      (processBlocks marker exec bs st).messages = st.messages ++ segOf exec bs := by
  intro bs
  induction bs with
  | nil => intro st; simp [processBlocks, segOf]
  | cons b bs ih =>
    intro st
    cases b with
    | text t => simp [processBlocks, segOf, ih]
    | toolUse id name inp => simp [processBlocks, segOf, ih]

/-- Processing a response records whether any block was a tool use. -/
theorem processBlocks_hasToolUse (marker : Str) (exec : String → Option ToolInput → Str) :
    ∀ (bs : List ContentBlock) (st : LoopState),
      (processBlocks marker exec bs st).hasToolUse = (st.hasToolUse || bs.any isToolUseB) := by
  intro bs
  induction bs with
  | nil => intro st; simp [processBlocks]
  | cons b bs ih =>
    intro st
    cases b with
    | text t => simp [processBlocks, ih, isToolUseB]
    | toolUse id name inp => simp [processBlocks, ih, isToolUseB]

/-- Processing a response accumulates exactly its text blocks in
`assistantContent`. -/
theorem processBlocks_assistant (marker : Str) (exec : String → Option ToolInput → Str) :
    ∀ (bs : List ContentBlock) (st : LoopState),
      (processBlocks marker exec bs st).assistantContent =
        st.assistantContent ++ textBlocksOf bs := by
  intro bs
  induction bs with
  | nil => intro st; simp [processBlocks, textBlocksOf]
  | cons b bs ih =>
    intro st
    cases b with
    | text t => simp [processBlocks, ih, textBlocksOf]
    | toolUse id name inp => simp [processBlocks, ih, textBlocksOf]

/-- A response with no tool-use block appends no messages. -/
theorem segOf_eq_nil (exec : String → Option ToolInput → Str) :
    ∀ bs : List ContentBlock, bs.any isToolUseB = false → segOf exec bs = [] := by
  intro bs
  induction bs with
  | nil => intro _; rfl
  | cons b bs ih =>
    intro h
    cases b with
    | text t =>
      simp only [List.any_cons, isToolUseB, Bool.false_or] at h
      simpa [segOf] using ih h
    | toolUse id name inp => simp [isToolUseB] at h

/-- The flattened blocks of a response's appended messages. -/
theorem flattenMsgs_segOf (exec : String → Option ToolInput → Str) :
    ∀ bs : List ContentBlock, flattenMsgs (segOf exec bs) = segBlocks exec bs := by
  intro bs
  induction bs with
  | nil => rfl
  | cons b bs ih =>
    cases b with
    | text t => simpa [segOf, segBlocks, flattenMsgs] using ih
    | toolUse id name inp => simpa [segOf, segBlocks, flattenMsgs] using ih

/-- Each tool use contributes exactly one result with its own id. -/
theorem countResults_segBlocks (exec : String → Option ToolInput → Str) (id : String) :
    ∀ bs : List ContentBlock,
      countResults id (segBlocks exec bs) = (toolUseIds bs).count id := by
  intro bs
  induction bs with
  | nil => rfl
  | cons b bs ih =>
    cases b with
    | text t => simpa [segBlocks, toolUseIds, countResults] using ih
    | toolUse id0 name inp =>
      by_cases hid : id0 = id
      · subst hid
        simp [segBlocks, toolUseIds, countResults, List.countP_cons, List.count_cons] at ih ⊢
        omega
      · have hbeq : (id0 == id) = false := by simpa using hid
        simp [segBlocks, toolUseIds, countResults, List.countP_cons, List.count_cons, hbeq,
          hid] at ih ⊢
        omega

/-- With pairwise distinct tool-use ids, the appended block sequence of
one response satisfies the pairing invariant. -/
theorem segPaired_segBlocks (exec : String → Option ToolInput → Str) :
    ∀ bs : List ContentBlock, (toolUseIds bs).Nodup → SegPaired (segBlocks exec bs) := by
  intro bs
  induction bs with
  | nil =>
    intro _ pre id name inp suf heq
    have hnil : ([] : List MsgBlock) = pre ++ MsgBlock.toolUse id name inp :: suf := heq
    exact absurd hnil.symm (by simp)
  | cons b bs ih =>
    cases b with
    | text t =>
      intro h
      exact ih h
    | toolUse id0 name0 inp0 =>
      intro h
      rw [show toolUseIds (ContentBlock.toolUse id0 name0 inp0 :: bs) = id0 :: toolUseIds bs
          from rfl, List.nodup_cons] at h
      obtain ⟨hni, hnd⟩ := h
      intro pre id name inp suf heq
      rw [show segBlocks exec (ContentBlock.toolUse id0 name0 inp0 :: bs) =
          MsgBlock.toolUse id0 name0 inp0 ::
            MsgBlock.toolResult id0 (exec name0 inp0) :: segBlocks exec bs from rfl] at heq
      cases pre with
      | nil =>
        rw [List.nil_append] at heq
        obtain ⟨h1, h2⟩ := List.cons.inj heq
        injection h1 with e1 e2 e3
        subst e1
        subst h2
        have hp : (fun b => match b with
            | MsgBlock.toolResult tid _ => tid == id0
            | _ => false) (MsgBlock.toolResult id0 (exec name0 inp0)) = true := by simp
        calc countResults id0
              (MsgBlock.toolResult id0 (exec name0 inp0) :: segBlocks exec bs)
            = countResults id0 (segBlocks exec bs) + 1 :=
              List.countP_cons_of_pos _ _ hp
          _ = (toolUseIds bs).count id0 + 1 := by rw [countResults_segBlocks]
          _ = 0 + 1 := by rw [List.count_eq_zero_of_not_mem hni]
          _ = 1 := by omega
      | cons p pre' =>
        rw [List.cons_append] at heq
        obtain ⟨-, h2⟩ := List.cons.inj heq
        cases pre' with
        | nil =>
          rw [List.nil_append] at h2
          obtain ⟨h3, -⟩ := List.cons.inj h2
          exact absurd h3 (by simp)
        | cons q pre'' =>
          rw [List.cons_append] at h2
          obtain ⟨-, h4⟩ := List.cons.inj h2
          exact ih hnd pre'' id name inp suf h4

/-- A block sequence containing only text blocks satisfies the pairing
invariant vacuously. -/
theorem all_text_paired :
    ∀ l : List MsgBlock, (∀ b ∈ l, ∃ t, b = MsgBlock.text t) → SegPaired l := by
  intro l h pre id name inp suf heq
  have hx : MsgBlock.toolUse id name inp ∈ l := by
    rw [heq]
    exact List.mem_append.mpr (Or.inr (List.mem_cons_self _ _))
  obtain ⟨t, ht⟩ := h _ hx
  exact absurd ht (by simp)

/-- Every block pushed onto `assistantContent` is a text block. -/
theorem textBlocksOf_all_text :
    ∀ (bs : List ContentBlock) (b : MsgBlock), b ∈ textBlocksOf bs → ∃ t, b = MsgBlock.text t := by
  intro bs b hb
  rw [textBlocksOf, List.mem_filterMap] at hb
  obtain ⟨a, -, ha⟩ := hb
  cases a with
  | text t => exact ⟨t, by simpa using ha.symm⟩
  | toolUse id name inp => simp at ha

/-- The final message history is the initial history followed by the
per-service-call segments. -/
theorem runLoop_messages (marker : Str) (exec : String → Option ToolInput → Str) :
    ∀ (rs : List Response) (st : LoopState),
      (runLoop marker exec rs st).1.messages =
        st.messages ++ (runSegs marker exec rs st).flatten := by
  intro rs
  induction rs with
  | nil => intro st; simp [runLoop, runSegs]
  | cons r rest ih =>
    intro st
    simp only [runLoop, runSegs]
    by_cases hc1 :
        (!(processBlocks marker exec r.content
          { st with hasToolUse := false, assistantContent := [] }).hasToolUse) = true
    · rw [if_pos hc1, if_pos hc1]
      by_cases hc2 :
          (!(processBlocks marker exec r.content
            { st with hasToolUse := false, assistantContent := [] }).assistantContent.isEmpty) = true
      · rw [if_pos hc2, if_pos hc2]
        simp [processBlocks_messages, List.append_assoc]
      · rw [if_neg hc2, if_neg hc2]
        simp [processBlocks_messages]
    · rw [if_neg hc1, if_neg hc1]
      by_cases hc3 : r.stop_reason = "end_turn"
      · rw [if_pos hc3, if_pos hc3]
        simp [processBlocks_messages]
      · rw [if_neg hc3, if_neg hc3]
        rw [ih]
        simp [processBlocks_messages, List.append_assoc]

/-- Every segment of a run whose responses carry pairwise distinct
tool-use ids satisfies the pairing invariant. -/
theorem runSegs_paired (marker : Str) (exec : String → Option ToolInput → Str) :
    ∀ (rs : List Response) (st : LoopState),
      (∀ r ∈ rs, (toolUseIds r.content).Nodup) →
      ∀ seg ∈ runSegs marker exec rs st, SegPaired (flattenMsgs seg) := by
  intro rs
  induction rs with
  | nil => intro st _ seg hseg; simp [runSegs] at hseg
  | cons r rest ih =>
    intro st h seg hseg
    have hr := h r (List.mem_cons_self _ _)
    simp only [runSegs] at hseg
    by_cases hc1 :
        (!(processBlocks marker exec r.content
          { st with hasToolUse := false, assistantContent := [] }).hasToolUse) = true
    · rw [if_pos hc1] at hseg
      have hno : r.content.any isToolUseB = false := by
        have := processBlocks_hasToolUse marker exec r.content
          { st with hasToolUse := false, assistantContent := [] }
        rw [Bool.not_eq_eq_eq_not, Bool.not_true] at hc1
        rw [this] at hc1
        simpa using hc1
      have hsegOf : segOf exec r.content = [] := segOf_eq_nil exec r.content hno
      rcases List.mem_singleton.mp hseg with rfl
      rw [hsegOf, List.nil_append]
      by_cases hc2 :
          (!(processBlocks marker exec r.content
            { st with hasToolUse := false, assistantContent := [] }).assistantContent.isEmpty) = true
      · rw [if_pos hc2]
        apply all_text_paired
        intro b hb
        have hcontent : (processBlocks marker exec r.content
            { st with hasToolUse := false, assistantContent := [] }).assistantContent =
            textBlocksOf r.content := by
          simpa using processBlocks_assistant marker exec r.content
            { st with hasToolUse := false, assistantContent := [] }
        rw [show flattenMsgs [⟨Role.assistant, (processBlocks marker exec r.content
            { st with hasToolUse := false, assistantContent := [] }).assistantContent⟩] =
            (processBlocks marker exec r.content
              { st with hasToolUse := false, assistantContent := [] }).assistantContent
          by simp [flattenMsgs], hcontent] at hb
        exact textBlocksOf_all_text r.content b hb
      · rw [if_neg hc2]
        exact all_text_paired [] (by simp)
    · rw [if_neg hc1] at hseg
      by_cases hc3 : r.stop_reason = "end_turn"
      · rw [if_pos hc3] at hseg
        rcases List.mem_singleton.mp hseg with rfl
        rw [flattenMsgs_segOf]
        exact segPaired_segBlocks exec r.content hr
      · rw [if_neg hc3] at hseg
        rcases List.mem_cons.mp hseg with rfl | htail
        · rw [flattenMsgs_segOf]
          exact segPaired_segBlocks exec r.content hr
        · exact ih _ (fun r' hr' => h r' (List.mem_cons_of_mem _ hr')) seg htail

/-- Processing blocks preserves the completion/output invariant: the
completion flag is set exactly when the newline-free marker occurs in the
accumulated output, which is a concatenation of newline-terminated
chunks. -/
theorem processBlocks_outInv (marker : Str) (exec : String → Option ToolInput → Str)
    (hm : '\n' ∉ marker) (hne : marker ≠ []) :
    ∀ (bs : List ContentBlock) (st : LoopState),
      ((st.isComplete = true ↔ marker <:+: st.fullOutput) ∧
        (st.fullOutput = [] ∨ ∃ l, st.fullOutput = l ++ ['\n'])) →
      (((processBlocks marker exec bs st).isComplete = true ↔
          marker <:+: (processBlocks marker exec bs st).fullOutput) ∧
        ((processBlocks marker exec bs st).fullOutput = [] ∨
          ∃ l, (processBlocks marker exec bs st).fullOutput = l ++ ['\n'])) := by
  intro bs
  induction bs with
  | nil => intro st h; exact h
  | cons b bs ih =>
    intro st h
    cases b with
    | toolUse id name inp => exact ih _ h
    | text t =>
      apply ih
      constructor
      · dsimp only
        rw [Bool.or_eq_true, h.1, jsIncludes_iff, List.append_assoc,
          infix_out_step hm hne h.2]
      · exact Or.inr ⟨st.fullOutput ++ t, by simp [List.append_assoc]⟩

/-- The conversation loop preserves the completion/output invariant. -/
theorem runLoop_outInv (marker : Str) (exec : String → Option ToolInput → Str)
    (hm : '\n' ∉ marker) (hne : marker ≠ []) :
    ∀ (rs : List Response) (st : LoopState),
      ((st.isComplete = true ↔ marker <:+: st.fullOutput) ∧
        (st.fullOutput = [] ∨ ∃ l, st.fullOutput = l ++ ['\n'])) →
      (((runLoop marker exec rs st).1.isComplete = true ↔
          marker <:+: (runLoop marker exec rs st).1.fullOutput) ∧
        ((runLoop marker exec rs st).1.fullOutput = [] ∨
          ∃ l, (runLoop marker exec rs st).1.fullOutput = l ++ ['\n'])) := by
  intro rs
  induction rs with
  | nil => intro st h; exact h
  | cons r rest ih =>
    intro st h
    have h1 := processBlocks_outInv marker exec hm hne r.content
      { st with hasToolUse := false, assistantContent := [] } h
    simp only [runLoop]
    by_cases hc1 :
        (!(processBlocks marker exec r.content
          { st with hasToolUse := false, assistantContent := [] }).hasToolUse) = true
    · rw [if_pos hc1]
      by_cases hc2 :
          (!(processBlocks marker exec r.content
            { st with hasToolUse := false, assistantContent := [] }).assistantContent.isEmpty) = true
      · rw [if_pos hc2]
        exact h1
      · rw [if_neg hc2]
        exact h1
    · rw [if_neg hc1]
      by_cases hc3 : r.stop_reason = "end_turn"
      · rw [if_pos hc3]
        exact h1
      · rw [if_neg hc3]
        exact ih _ h1

/-- Processing blocks preserves the files-changed invariant: the list
equals the write-file paths recorded in the message history. -/
theorem processBlocks_filesInv (marker : Str) (exec : String → Option ToolInput → Str) :
    ∀ (bs : List ContentBlock) (st : LoopState),
      st.filesChanged = (flattenMsgs st.messages).filterMap writePathOfMsgBlock →
      (processBlocks marker exec bs st).filesChanged =
        (flattenMsgs (processBlocks marker exec bs st).messages).filterMap writePathOfMsgBlock := by
  intro bs
  induction bs with
  | nil => intro st h; exact h
  | cons b bs ih =>
    intro st h
    cases b with
    | text t => exact ih _ h
    | toolUse id name inp =>
      apply ih
      show st.filesChanged ++ (writePathOf name inp).toList =
        (flattenMsgs (st.messages ++
          [⟨Role.assistant, [MsgBlock.toolUse id name inp]⟩,
           ⟨Role.user, [MsgBlock.toolResult id (exec name inp)]⟩])).filterMap writePathOfMsgBlock
      rw [show flattenMsgs (st.messages ++
          [⟨Role.assistant, [MsgBlock.toolUse id name inp]⟩,
           ⟨Role.user, [MsgBlock.toolResult id (exec name inp)]⟩]) =
          flattenMsgs st.messages ++
            [MsgBlock.toolUse id name inp, MsgBlock.toolResult id (exec name inp)]
        by simp [flattenMsgs]]
      rw [List.filterMap_append, h]
      cases hw : writePathOf name inp with
      | none => simp [List.filterMap_cons, writePathOfMsgBlock, hw]
      | some p => simp [List.filterMap_cons, writePathOfMsgBlock, hw]

/-- The conversation loop preserves the files-changed invariant. -/
theorem runLoop_filesInv (marker : Str) (exec : String → Option ToolInput → Str) :
    ∀ (rs : List Response) (st : LoopState),
      st.filesChanged = (flattenMsgs st.messages).filterMap writePathOfMsgBlock →
      (runLoop marker exec rs st).1.filesChanged =
        (flattenMsgs (runLoop marker exec rs st).1.messages).filterMap writePathOfMsgBlock := by
  intro rs
  induction rs with
  | nil => intro st h; exact h
  | cons r rest ih =>
    intro st h
    have h1 := processBlocks_filesInv marker exec r.content
      { st with hasToolUse := false, assistantContent := [] } h
    simp only [runLoop]
    by_cases hc1 :
        (!(processBlocks marker exec r.content
          { st with hasToolUse := false, assistantContent := [] }).hasToolUse) = true
    · rw [if_pos hc1]
      by_cases hc2 :
          (!(processBlocks marker exec r.content
            { st with hasToolUse := false, assistantContent := [] }).assistantContent.isEmpty) = true
      · rw [if_pos hc2]
        show (processBlocks marker exec r.content
            { st with hasToolUse := false, assistantContent := [] }).filesChanged =
          (flattenMsgs ((processBlocks marker exec r.content
            { st with hasToolUse := false, assistantContent := [] }).messages ++
              [⟨Role.assistant, (processBlocks marker exec r.content
                { st with hasToolUse := false, assistantContent := [] }).assistantContent⟩])).filterMap
            writePathOfMsgBlock
        rw [show ∀ msgs ac, flattenMsgs (msgs ++ [⟨Role.assistant, ac⟩]) = flattenMsgs msgs ++ ac
          from fun msgs ac => by simp [flattenMsgs]]
        rw [List.filterMap_append, h1]
        have hac : ∀ b ∈ (processBlocks marker exec r.content
            { st with hasToolUse := false, assistantContent := [] }).assistantContent,
            writePathOfMsgBlock b = none := by
          intro b hb
          have hcontent := processBlocks_assistant marker exec r.content
            { st with hasToolUse := false, assistantContent := [] }
          rw [hcontent] at hb
          obtain ⟨t, rfl⟩ := textBlocksOf_all_text r.content b (by simpa using hb)
          rfl
        rw [List.filterMap_eq_nil_iff.mpr hac, List.append_nil]
      · rw [if_neg hc2]
        exact h1
    · rw [if_neg hc1]
      by_cases hc3 : r.stop_reason = "end_turn"
      · rw [if_pos hc3]
        exact h1
      · rw [if_neg hc3]
        exact ih _ h1

/-- C2: in every trace of the conversation loop, the message history is
the initial instruction followed by the per-service-call segments, and
within each segment every tool-use block is followed by exactly one
tool-result block with the matching id (given that the service returns
pairwise distinct tool-use ids within each response, as the wire protocol
guarantees). -/
theorem runIteration_tool_pairing (marker : Str) (exec : String → Option ToolInput → Str)
    (responses : List Response)
    (h : ∀ r ∈ responses, (toolUseIds r.content).Nodup) :
    (runLoop marker exec responses initState).1.messages =
      initState.messages ++ (runSegs marker exec responses initState).flatten ∧
    ∀ seg ∈ runSegs marker exec responses initState, SegPaired (flattenMsgs seg) :=
  ⟨runLoop_messages marker exec responses initState,
   runSegs_paired marker exec responses initState h⟩

/-- Witness for C2 at a run with two distinct tool uses. -/
theorem runIteration_tool_pairing_witness :
    (∀ r ∈ twoToolsThenDone, (toolUseIds r.content).Nodup) ∧
    ((runLoop (txt "M") execConst twoToolsThenDone initState).1.messages =
      initState.messages ++ (runSegs (txt "M") execConst twoToolsThenDone initState).flatten ∧
    ∀ seg ∈ runSegs (txt "M") execConst twoToolsThenDone initState,
      SegPaired (flattenMsgs seg)) :=
  ⟨by decide, runIteration_tool_pairing (txt "M") execConst twoToolsThenDone (by decide)⟩

/-- C3 (amended): for a successful iteration, the completion flag is true
exactly when the completion marker occurs in the accumulated response
text; a failed iteration always reports the completion flag false, even
when the marker occurred before the failure.  The marker literal (defined
in types.ts, outside this repository part) is assumed non-empty and
newline-free, as the single-line prompt instruction
`output exactly: <marker>` requires. -/
theorem runIteration_completion_marker (marker : Str)
    (exec : String → Option ToolInput → Str) (responses : List Response) (errMsg : Str)
    (hne : marker ≠ []) (hm : '\n' ∉ marker) :
    ((runIteration marker exec responses errMsg).success = true →
      ∃ out, (runIteration marker exec responses errMsg).output = some out ∧
        ((runIteration marker exec responses errMsg).isComplete = true ↔ marker <:+: out)) ∧
    ((runIteration marker exec responses errMsg).success = false →
      (runIteration marker exec responses errMsg).isComplete = false) := by
  have hinit : (initState.isComplete = true ↔ marker <:+: initState.fullOutput) ∧
      (initState.fullOutput = [] ∨ ∃ l, initState.fullOutput = l ++ ['\n']) := by
    constructor
    · simp [initState, List.infix_nil, hne]
    · exact Or.inl rfl
  have hinv := runLoop_outInv marker exec hm hne responses initState hinit
  rcases hr : runLoop marker exec responses initState with ⟨st, b⟩
  rw [hr] at hinv
  cases b with
  | true =>
    constructor
    · intro _
      refine ⟨st.fullOutput, ?_, ?_⟩
      · simp [runIteration, hr]
      · simpa [runIteration, hr] using hinv.1
    · intro hfail
      simp [runIteration, hr] at hfail
  | false =>
    constructor
    · intro hsucc
      simp [runIteration, hr] at hsucc
    · intro _
      simp [runIteration, hr]

/-- C3 (counterexample to the claim as stated): when the service fails
after the marker has been emitted, the iteration result carries the
marker in its accumulated output yet reports the completion flag false. -/
theorem runIteration_completion_counterexample :
    (runIteration (txt "DONE") execConst markerThenCrash (txt "network")).isComplete = false ∧
    (runIteration (txt "DONE") execConst markerThenCrash (txt "network")).output =
      some (txt "DONE\n") ∧
    txt "DONE" <:+: txt "DONE\n" :=
  ⟨by decide, by decide, by decide⟩

/-- Witness for C3 at a successful run whose text contains the marker. -/
theorem runIteration_completion_marker_witness :
    (txt "OK!" ≠ [] ∧ '\n' ∉ txt "OK!") ∧
    ∃ out, (runIteration (txt "OK!") execConst markerTextDone (txt "err")).output = some out ∧
      ((runIteration (txt "OK!") execConst markerTextDone (txt "err")).isComplete = true ↔
        txt "OK!" <:+: out) :=
  ⟨⟨by decide, by decide⟩,
   (runIteration_completion_marker (txt "OK!") execConst markerTextDone (txt "err")
      (by decide) (by decide)).1 (by decide)⟩

/-- C9: a successful iteration reports as files changed exactly the
paths of the `write_file` tool uses recorded in the trace, in order,
independently of the tool results (`exec` is arbitrary, so failed writes
count too). -/
theorem runIteration_filesChanged (marker : Str) (exec : String → Option ToolInput → Str)
    (responses : List Response) (errMsg : Str)
    (h : (runIteration marker exec responses errMsg).success = true) :
    (runIteration marker exec responses errMsg).filesChanged =
      some ((flattenMsgs (runLoop marker exec responses initState).1.messages).filterMap
        writePathOfMsgBlock) := by
  have hinv := runLoop_filesInv marker exec responses initState rfl
  rcases hr : runLoop marker exec responses initState with ⟨st, b⟩
  rw [hr] at hinv
  cases b with
  | false => simp [runIteration, hr] at h
  | true =>
    simp [runIteration, hr]
    exact hinv

/-- Witness for C9 at a run writing one file. -/
theorem runIteration_filesChanged_witness :
    (runIteration (txt "M") execConst writeThenDone (txt "err")).success = true ∧
    (runIteration (txt "M") execConst writeThenDone (txt "err")).filesChanged =
      some ((flattenMsgs (runLoop (txt "M") execConst writeThenDone initState).1.messages).filterMap
        writePathOfMsgBlock) :=
  ⟨by decide,
   runIteration_filesChanged (txt "M") execConst writeThenDone (txt "err") (by decide)⟩

/-- C10: a successful iteration carries a non-empty task description;
when neither the inline heuristic nor the structured-output parser
extracted one, it is the literal fallback `Task completed`. -/
theorem runIteration_taskDescription_fallback (marker : Str)
    (exec : String → Option ToolInput → Str) (responses : List Response) (errMsg : Str)
    (h : (runIteration marker exec responses errMsg).success = true) :
    ∃ d, (runIteration marker exec responses errMsg).taskDescription = some d ∧ d ≠ [] ∧
      (((runLoop marker exec responses initState).1.taskDescription = [] ∧
        (parseStructuredOutput
          (runLoop marker exec responses initState).1.fullOutput).taskDescription = []) →
        d = txt "Task completed") := by
  rcases hr : runLoop marker exec responses initState with ⟨st, b⟩
  cases b with
  | false => simp [runIteration, hr] at h
  | true =>
    refine ⟨jsOrStr (some (if !(parseStructuredOutput st.fullOutput).taskDescription.isEmpty
        then (parseStructuredOutput st.fullOutput).taskDescription
        else st.taskDescription)) (txt "Task completed"), ?_, ?_, ?_⟩
    · simp [runIteration, hr]
    · exact jsOrStr_ne_nil _ _ (by decide)
    · rintro ⟨h1, h2⟩
      dsimp only at h1 h2
      simp [jsOrStr, h1, h2]

/-- Witness for C10 at a plain-text run with no extractable description. -/
theorem runIteration_taskDescription_fallback_witness :
    (runIteration (txt "M") execConst plainTextDone (txt "err")).success = true ∧
    ∃ d, (runIteration (txt "M") execConst plainTextDone (txt "err")).taskDescription = some d ∧
      d ≠ [] ∧
      (((runLoop (txt "M") execConst plainTextDone initState).1.taskDescription = [] ∧
        (parseStructuredOutput
          (runLoop (txt "M") execConst plainTextDone initState).1.fullOutput).taskDescription = []) →
        d = txt "Task completed") :=
  ⟨by decide,
   runIteration_taskDescription_fallback (txt "M") execConst plainTextDone (txt "err") (by decide)⟩

end Loop
